import Mathlib

/-!
# Verification of the litios persistence layer (`server.py`)

A shallow embedding of the Flask + SQLite server in `server.py`.  Each SQLite
table becomes a Lean list of row structures kept in rowid (insertion) order;
each HTTP handler becomes a Lean function over an explicit `State`.  SQL
constraint failures (NOT NULL, PRIMARY KEY) and unhandled Python exceptions
become `Except Unit` errors; a request that errors rolls its uncommitted
writes back, which the callers of these functions model explicitly.

JSON payloads stored in the `history.data` TEXT column are viewed through the
`json.dumps` / `json.loads` codec: `Stored.doc p` stands for the serialization
of the object `p` (on which `json.loads` succeeds and returns `p`), and
`Stored.corrupt s` stands for a string on which `json.loads` raises
`JSONDecodeError`.  This is a faithful data refinement of the TEXT column
because `json.dumps` is injective on objects and `json.loads` is its left
inverse.
-/

namespace Liti

/-- JSON scalar values as they occur inside a history payload object. -/
inductive JVal where
  | jstr (s : String)
  | jnum (n : Int)
  | jbool (b : Bool)
  | jnull
  deriving DecidableEq

/-- A JSON object payload, i.e. a Python dict produced by `request.get_json()`:
an association list of key/value pairs in insertion order.  Dicts cannot hold
a key twice; theorems that depend on that carry a `Nodup` hypothesis on the
keys. -/
abbrev Payload := List (String × JVal)

/-- `item[k]` lookup on a dict. -/
def lookupKey (item : Payload) (k : String) : Option JVal :=
  (item.find? (fun kv => kv.1 == k)).map (fun kv => kv.2)

/-- `item[k] = v` on a dict: replaces the value in place if the key is
present, appends the pair otherwise. -/
def setKey (item : Payload) (k : String) (v : JVal) : Payload :=
  match item with
  | [] => [(k, v)]
  | kv :: rest => if kv.1 == k then (k, v) :: rest else kv :: setKey rest k v

/-- `item.pop(k, None)` on a dict: returns the removed value (if any) and the
remaining dict. -/
def popKey (item : Payload) (k : String) : Option JVal × Payload :=
  match item with
  | [] => (none, [])
  | kv :: rest =>
    if kv.1 == k then (some kv.2, rest)
    else
      let r := popKey rest k
      (r.1, kv :: r.2)

/-- The content of the `history.data` TEXT column, seen through the JSON
codec: either the `json.dumps` serialization of a payload, or a string that
`json.loads` rejects. -/
inductive Stored where
  | doc (item : Payload)
  | corrupt (s : String)
  deriving DecidableEq

/-- `json.loads` on a stored document: succeeds exactly on serialized
payloads. -/
def jsonLoads : Stored → Option Payload
  | .doc item => some item
  | .corrupt _ => none

/-- A row of the `scales` table (`id INTEGER PRIMARY KEY, name TEXT NOT NULL,
category TEXT, enabled INTEGER DEFAULT 1, instructions TEXT`).  `id` is the
rowid, hence never NULL; `category` may be NULL; `enabled` stores the 0/1
integer the handlers write. -/
structure ScaleRec where
  id : Int
  name : String
  category : Option String
  enabled : Int
  instructions : String
  deriving DecidableEq

/-- A row of the `models` table (`id TEXT PRIMARY KEY, name TEXT NOT NULL,
provider TEXT`).  A TEXT primary key in SQLite may be NULL, so `id` is an
`Option`. -/
structure ModelRec where
  id : Option String
  name : String
  provider : String
  deriving DecidableEq

/-- A row of the `history` table (`id INTEGER PRIMARY KEY, data TEXT NOT
NULL, created_at TIMESTAMP DEFAULT CURRENT_TIMESTAMP`).  `created_at` is the
wall-clock second at insertion time. -/
structure HistRow where
  id : Int
  data : Stored
  created_at : Nat
  deriving DecidableEq

/-- The four tables of the database.  Each list is in rowid scan order except
`scales` and `history`, whose INTEGER PRIMARY KEY makes the scan order the
ascending id order; reads that depend on it re-sort explicitly. -/
structure State where
  settings : List (String × String)
  scales : List ScaleRec
  models : List ModelRec
  history : List HistRow
  deriving DecidableEq

/-- The state right after `CREATE TABLE IF NOT EXISTS` on a fresh database. -/
def emptyState : State := ⟨[], [], [], []⟩

/-- ids of the scale rows (never NULL). -/
def scaleIds (rows : List ScaleRec) : List Int := rows.map (fun r => r.id)

/-- The non-NULL ids of the model rows. -/
def modelIds (rows : List ModelRec) : List String := rows.filterMap (fun r => r.id)

/-- ids of the history rows. -/
def histIds (rows : List HistRow) : List Int := rows.map (fun r => r.id)

/-- The rowid SQLite assigns to an INTEGER PRIMARY KEY insert that supplies
no id: one more than the largest id in use (1 on an empty table). -/
def nextId (ids : List Int) : Int := ids.foldl max 0 + 1

/-- `INSERT OR REPLACE INTO settings`: the conflicting row (the key is the
primary key) is deleted and the new row appended with a fresh rowid. -/
def upsertSetting (rows : List (String × String)) (k v : String) :
    List (String × String) :=
  rows.filter (fun kv => kv.1 != k) ++ [(k, v)]

/-- Upsert a key only when the request/document supplies it (`if key in
data`). -/
def upsertSettingOpt (rows : List (String × String)) (k : String) :
    Option String → List (String × String)
  | some v => upsertSetting rows k v
  | none => rows

/-- The value currently stored under a settings key. -/
def settingVal (rows : List (String × String)) (k : String) : Option String :=
  (rows.find? (fun kv => kv.1 == k)).map (fun kv => kv.2)

/-! ## Request-body views

`request.get_json()` hands each handler a dict it reads with `.get`, so a
missing field is `none`. -/

/-- A scale object in a request or defaults document, as read by
`scale.get(...)`. -/
structure ScaleIn where
  id : Option Int
  name : Option String
  category : Option String
  enabled : Option Bool
  instructions : Option String
  deriving DecidableEq

/-- A model object in a request or defaults document, as read by
`model.get(...)`/`data.get(...)`. -/
structure ModelIn where
  id : Option String
  name : Option String
  provider : Option String
  deriving DecidableEq

/-- The body of PUT `/api/prompts/scales/<id>` and POST
`/api/prompts/scales/add`: the four non-id fields, each read with `.get`. -/
structure ScaleUpdate where
  name : Option String
  category : Option String
  enabled : Option Bool
  instructions : Option String
  deriving DecidableEq

/-- The row a scale insert builds:
`(scale.get('id'), scale.get('name'), scale.get('category'),
1 if scale.get('enabled', True) else 0, scale.get('instructions', ''))`.
A missing name violates `name TEXT NOT NULL`; a missing id lets SQLite
assign the next rowid. -/
def scaleInRow (rows : List ScaleRec) (sc : ScaleIn) : Except Unit ScaleRec :=
  match sc.name with
  | none => .error ()
  | some nm =>
    .ok { id := sc.id.getD (nextId (scaleIds rows)), name := nm,
          category := sc.category,
          enabled := if sc.enabled.getD true then 1 else 0,
          instructions := sc.instructions.getD "" }

/-- The row a model insert builds:
`(data.get('id'), data.get('name'), data.get('provider', ''))`.  A missing
name violates `name TEXT NOT NULL`. -/
def modelInRow (mi : ModelIn) : Except Unit ModelRec :=
  match mi.name with
  | none => .error ()
  | some nm => .ok { id := mi.id, name := nm, provider := mi.provider.getD "" }

/-- Plain `INSERT INTO scales`: a duplicate primary key is a constraint
error. -/
def insertScaleRow (rows : List ScaleRec) (r : ScaleRec) :
    Except Unit (List ScaleRec) :=
  if r.id ∈ scaleIds rows then .error () else .ok (rows ++ [r])

/-- `INSERT OR REPLACE INTO scales`: the row with the same id (if any) is
deleted and the new row appended. -/
def upsertScaleRow (rows : List ScaleRec) (r : ScaleRec) : List ScaleRec :=
  rows.filter (fun x => x.id != r.id) ++ [r]

/-- Plain `INSERT INTO models`: duplicate non-NULL primary key is a
constraint error; NULL ids never conflict. -/
def insertModelRow (rows : List ModelRec) (m : ModelRec) :
    Except Unit (List ModelRec) :=
  match m.id with
  | some i => if i ∈ modelIds rows then .error () else .ok (rows ++ [m])
  | none => .ok (rows ++ [m])

/-- `INSERT OR REPLACE INTO models`: rows sharing the (non-NULL) id are
deleted, then the new row is appended; a NULL id conflicts with nothing. -/
def upsertModel (rows : List ModelRec) (m : ModelRec) : List ModelRec :=
  match m.id with
  | some i => rows.filter (fun r => r.id != some i) ++ [m]
  | none => rows ++ [m]

/-! ## Settings and prompts handlers -/

/-- GET `/api/settings`: the dict of all rows. -/
def get_settings (s : State) : List (String × String) := s.settings

/-- POST `/api/settings`: upsert every pair of the body. -/
def save_settings (s : State) (data : List (String × String)) : State :=
  { s with settings := data.foldl (fun rows kv => upsertSetting rows kv.1 kv.2) s.settings }

/-- GET `/api/settings/<key>`: HTTP status and the body `{key: value-or-null}`.
The handler answers 200 whether or not the key exists. -/
def get_setting (s : State) (key : String) : Nat × String × JVal :=
  (200, key,
    match settingVal s.settings key with
    | some v => .jstr v
    | none => .jnull)

/-- POST `/api/settings/<key>` with `value = data.get('value', '')`. -/
def save_setting (s : State) (key value : String) : State :=
  { s with settings := upsertSetting s.settings key value }

/-- POST `/api/prompts`: upsert each of the three prompt keys present in the
body. -/
def save_prompts (s : State) (sp pp rp : Option String) : State :=
  { s with settings :=
      upsertSettingOpt (upsertSettingOpt (upsertSettingOpt s.settings
        "systemPrompt" sp) "personalityPrompt" pp) "requirementsPrompt" rp }

/-- POST `/api/prompts/system`. -/
def save_system_prompt (s : State) (v : String) : State :=
  { s with settings := upsertSetting s.settings "systemPrompt" v }

/-! ## Scales handlers -/

/-- The JSON view of a scale row produced by the GET handlers
(`scale['enabled'] = bool(scale['enabled'])`). -/
structure ScaleOut where
  id : Int
  name : String
  category : Option String
  enabled : Bool
  instructions : String
  deriving DecidableEq

/-- A row as returned to the client. -/
def rowToOut (r : ScaleRec) : ScaleOut :=
  ⟨r.id, r.name, r.category, r.enabled != 0, r.instructions⟩

/-- GET `/api/prompts/scales`: `SELECT ... FROM scales ORDER BY id`, with the
`enabled` bit decoded. -/
def get_scales (s : State) : List ScaleOut :=
  (List.insertionSort (fun a b => a.id ≤ b.id) s.scales).map rowToOut

/-- The insert loop of POST `/api/prompts/scales` after `DELETE FROM
scales`. -/
def saveScalesLoop (rows : List ScaleRec) : List ScaleIn → Except Unit (List ScaleRec)
  | [] => .ok rows
  | sc :: rest =>
    match scaleInRow rows sc with
    | .error e => .error e
    | .ok r =>
      match insertScaleRow rows r with
      | .error e => .error e
      | .ok rows' => saveScalesLoop rows' rest

/-- POST `/api/prompts/scales` (replace all): delete every row, then insert
the supplied scales in order.  On a constraint error nothing is committed and
the request fails. -/
def save_scales (s : State) (scales : List ScaleIn) : Except Unit State :=
  match saveScalesLoop [] scales with
  | .error e => .error e
  | .ok rows => .ok { s with scales := rows }

/-- PUT `/api/prompts/scales/<id>`: `UPDATE scales SET name=?, category=?,
enabled=?, instructions=? WHERE id=?`.  All four columns are overwritten on
the matching row; when no row matches, the statement succeeds as a no-op; a
missing `name` on a matching row violates NOT NULL. -/
def update_scale (s : State) (scale_id : Int) (d : ScaleUpdate) : Except Unit State :=
  if (s.scales.find? (fun r => r.id == scale_id)).isSome then
    match d.name with
    | none => .error ()
    | some nm =>
      .ok { s with scales := s.scales.map (fun r =>
              if r.id == scale_id then
                { r with name := nm, category := d.category,
                         enabled := if d.enabled.getD true then 1 else 0,
                         instructions := d.instructions.getD "" }
              else r) }
  else .ok s

/-- DELETE `/api/prompts/scales/<id>`. -/
def delete_scale (s : State) (scale_id : Int) : State :=
  { s with scales := s.scales.filter (fun r => r.id != scale_id) }

/-- POST `/api/prompts/scales/add`: insert without an id (SQLite assigns the
next rowid, returned as `cursor.lastrowid`). -/
def add_scale (s : State) (d : ScaleUpdate) : Except Unit (State × Int) :=
  match d.name with
  | none => .error ()
  | some nm =>
    let newId := nextId (scaleIds s.scales)
    .ok ({ s with scales := s.scales ++
            [{ id := newId, name := nm, category := d.category,
               enabled := if d.enabled.getD true then 1 else 0,
               instructions := d.instructions.getD "" }] }, newId)

/-! ## Models handlers -/

/-- GET `/api/models`: `SELECT id, name, provider FROM models` in scan
order. -/
def get_models (s : State) : List ModelRec := s.models

/-- The insert loop of POST `/api/models` after `DELETE FROM models`. -/
def saveModelsLoop (rows : List ModelRec) : List ModelIn → Except Unit (List ModelRec)
  | [] => .ok rows
  | mi :: rest =>
    match modelInRow mi with
    | .error e => .error e
    | .ok m =>
      match insertModelRow rows m with
      | .error e => .error e
      | .ok rows' => saveModelsLoop rows' rest

/-- POST `/api/models` (replace all). -/
def save_models (s : State) (models : List ModelIn) : Except Unit State :=
  match saveModelsLoop [] models with
  | .error e => .error e
  | .ok rows => .ok { s with models := rows }

/-- POST `/api/models/add`: `INSERT OR REPLACE`, an upsert on the
caller-supplied id. -/
def add_model (s : State) (mi : ModelIn) : Except Unit State :=
  match modelInRow mi with
  | .error e => .error e
  | .ok m => .ok { s with models := upsertModel s.models m }

/-- DELETE `/api/models/<model_id>`: removes the matching rows and always
answers `{"success": true}` (the Bool). -/
def delete_model (s : State) (model_id : String) : State × Bool :=
  ({ s with models := s.models.filter (fun r => r.id != some model_id) }, true)

/-! ## History handlers -/

/-- The scan order of the `history` table: ascending rowid, i.e. ascending
id, whatever order the rows were inserted in. -/
def histScan (s : State) : List HistRow :=
  List.insertionSort (fun a b => a.id ≤ b.id) s.history

/-- `SELECT ... FROM history ORDER BY created_at DESC`.  Rows sharing a
timestamp (CURRENT_TIMESTAMP has one-second resolution) keep their relative
scan order, modeled by a stable sort over the id-ordered scan. -/
def histSorted (s : State) : List HistRow :=
  List.insertionSort (fun a b => b.created_at ≤ a.created_at) (histScan s)

/-- GET `/api/history`: parse each row's `data`, attach the row id, and
silently skip rows whose `data` does not parse (`except JSONDecodeError:
pass`). -/
def get_history (s : State) : List Payload :=
  (histSorted s).filterMap (fun row =>
    match jsonLoads row.data with
    | some item => some (setKey item "id" (.jnum row.id))
    | none => none)

/-- The row id `item.pop('id', None)` hands to the INTEGER PRIMARY KEY
column: an integer is used as the rowid, None/absent lets SQLite assign one,
anything else is a datatype mismatch.  (SQLite would additionally coerce a
numeric string; no claim exercises that corner.) -/
def histItemId : Option JVal → Except Unit (Option Int)
  | none => .ok none
  | some (.jnum n) => .ok (some n)
  | some .jnull => .ok none
  | some _ => .error ()

/-- One `INSERT INTO history (id, data) VALUES (?, ?)`: explicit id or next
rowid, `created_at` defaulted to the current time. -/
def insertHistRow (rows : List HistRow) (idOpt : Option Int) (d : Stored)
    (now : Nat) : Except Unit (List HistRow) :=
  let i := idOpt.getD (nextId (histIds rows))
  if i ∈ histIds rows then .error ()
  else .ok (rows ++ [{ id := i, data := d, created_at := now }])

/-- The insert loop of POST `/api/history` after `DELETE FROM history`: each
item's `id` key is popped off and the remainder serialized. -/
def saveHistoryLoop (now : Nat) (rows : List HistRow) :
    List Payload → Except Unit (List HistRow)
  | [] => .ok rows
  | item :: rest =>
    match histItemId (popKey item "id").1 with
    | .error e => .error e
    | .ok idOpt =>
      match insertHistRow rows idOpt (.doc (popKey item "id").2) now with
      | .error e => .error e
      | .ok rows' => saveHistoryLoop now rows' rest

/-- POST `/api/history` (replace all). -/
def save_history (s : State) (items : List Payload) (now : Nat) : Except Unit State :=
  match saveHistoryLoop now [] items with
  | .error e => .error e
  | .ok rows => .ok { s with history := rows }

/-- POST `/api/history/add`: serialize the body as-is and insert it with an
auto-assigned id, returned as `cursor.lastrowid`. -/
def add_history (s : State) (data : Payload) (now : Nat) : State × Int :=
  let newId := nextId (histIds s.history)
  ({ s with history := s.history ++ [{ id := newId, data := .doc data, created_at := now }] },
   newId)

/-- The outcome of GET `/api/history/<id>`: the item (with the row id
attached), or the 404 body `{"error": "Not found"}`. -/
inductive HistItemResp where
  | found (item : Payload)
  | notFound
  deriving DecidableEq

/-- GET `/api/history/<id>`: look the row up by primary key; `json.loads` on
its `data` runs with no exception handler, so a corrupt row raises. -/
def get_history_item (s : State) (analysis_id : Int) : Except Unit HistItemResp :=
  match s.history.find? (fun row => row.id == analysis_id) with
  | some row =>
    match jsonLoads row.data with
    | some item => .ok (.found (setKey item "id" (.jnum row.id)))
    | none => .error ()
  | none => .ok .notFound

/-- DELETE `/api/history/<id>`. -/
def delete_history_item (s : State) (analysis_id : Int) : State :=
  { s with history := s.history.filter (fun r => r.id != analysis_id) }

/-! ## Defaults and reset -/

/-- A successful parse of `data/prompts.json`, as `load_defaults` reads it:
the three prompt keys via `key in defaults`, the scale and model arrays via
`.get(..., [])`. -/
structure DefaultsDoc where
  systemPrompt : Option String
  personalityPrompt : Option String
  requirementsPrompt : Option String
  scales : List ScaleIn
  models : List ModelIn
  deriving DecidableEq

/-- The substitute document `{"systemPrompt": "", "scales": [], "models": []}`
used when the defaults file is missing or unparseable. -/
def substituteDefaults : DefaultsDoc :=
  { systemPrompt := some "", personalityPrompt := none,
    requirementsPrompt := none, scales := [], models := [] }

/-- The settings writes of `load_defaults`: each of the three known keys is
upserted when present in the document. -/
def seedSettings (rows : List (String × String)) (d : DefaultsDoc) :
    List (String × String) :=
  upsertSettingOpt (upsertSettingOpt (upsertSettingOpt rows
    "systemPrompt" d.systemPrompt) "personalityPrompt" d.personalityPrompt)
    "requirementsPrompt" d.requirementsPrompt

/-- The scales loop of `load_defaults`: `INSERT OR REPLACE` per default
scale, explicit id preserved. -/
def seedScales (rows : List ScaleRec) : List ScaleIn → Except Unit (List ScaleRec)
  | [] => .ok rows
  | sc :: rest =>
    match scaleInRow rows sc with
    | .error e => .error e
    | .ok r => seedScales (upsertScaleRow rows r) rest

/-- The models loop of `load_defaults`: `INSERT OR REPLACE` per default
model. -/
def seedModels (rows : List ModelRec) : List ModelIn → Except Unit (List ModelRec)
  | [] => .ok rows
  | mi :: rest =>
    match modelInRow mi with
    | .error e => .error e
    | .ok m => seedModels (upsertModel rows m) rest

/-- `load_defaults()`: parse the defaults file (`none` stands for a missing
file or a `JSONDecodeError`, replaced by the substitute document), then seed
settings, scales and models.  An error rolls this routine's uncommitted
writes back. -/
def load_defaults (s : State) (doc : Option DefaultsDoc) : Except Unit State :=
  let d := doc.getD substituteDefaults
  match seedScales s.scales d.scales with
  | .error e => .error e
  | .ok scales =>
    match seedModels s.models d.models with
    | .error e => .error e
    | .ok models =>
      .ok { s with settings := seedSettings s.settings d, scales := scales, models := models }

/-- POST `/api/reset-to-defaults`: delete the four tables (committed at
once), then run `load_defaults`.  If seeding fails, its uncommitted writes
roll back and only the emptied tables remain. -/
def reset_to_defaults (_s : State) (doc : Option DefaultsDoc) : State :=
  match load_defaults emptyState doc with
  | .ok s' => s'
  | .error _ => emptyState

/-- `init_db()` after the `CREATE TABLE IF NOT EXISTS` statements: seed the
defaults only when the `scales` table is empty.  A seeding failure rolls
back, leaving the existing state. -/
def init_db (s : State) (doc : Option DefaultsDoc) : State :=
  if s.scales.isEmpty then
    match load_defaults s doc with
    | .ok s' => s'
    | .error _ => s
  else s

/-! ## The operations, as one step relation -/

/-- Every state-mutating entry point of the server, with its request-body
arguments. -/
inductive Op where
  | saveSettings (data : List (String × String))
  | saveSetting (key value : String)
  | savePrompts (sp pp rp : Option String)
  | saveSystemPrompt (v : String)
  | saveScales (scales : List ScaleIn)
  | updateScale (id : Int) (d : ScaleUpdate)
  | deleteScale (id : Int)
  | addScale (d : ScaleUpdate)
  | saveModels (models : List ModelIn)
  | addModel (m : ModelIn)
  | deleteModel (id : String)
  | saveHistory (items : List Payload) (now : Nat)
  | addHistory (data : Payload) (now : Nat)
  | deleteHistory (id : Int)
  | resetToDefaults (doc : Option DefaultsDoc)
  | initDb (doc : Option DefaultsDoc)

/-- Run one mutating request against the store.  An `error` is a failed
request whose transaction rolled back (the state is unchanged in that
case). -/
def step (s : State) : Op → Except Unit State
  | .saveSettings d => .ok (save_settings s d)
  | .saveSetting k v => .ok (save_setting s k v)
  | .savePrompts a b c => .ok (save_prompts s a b c)
  | .saveSystemPrompt v => .ok (save_system_prompt s v)
  | .saveScales sc => save_scales s sc
  | .updateScale i d => update_scale s i d
  | .deleteScale i => .ok (delete_scale s i)
  | .addScale d =>
    match add_scale s d with
    | .error e => .error e
    | .ok p => .ok p.1
  | .saveModels ms => save_models s ms
  | .addModel m => add_model s m
  | .deleteModel i => .ok (delete_model s i).1
  | .saveHistory items now => save_history s items now
  | .addHistory d now => .ok (add_history s d now).1
  | .deleteHistory i => .ok (delete_history_item s i)
  | .resetToDefaults doc => .ok (reset_to_defaults s doc)
  | .initDb doc => .ok (init_db s doc)

/-- The primary-key uniqueness invariant of §3: no two scale rows and no two
model rows share an id (NULL model ids, which SQLite never compares equal,
are exempt). -/
def UniqueIds (s : State) : Prop :=
  (scaleIds s.scales).Nodup ∧ (modelIds s.models).Nodup

/-! ## Derived record builders used in theorem statements -/

/-- The scale row a fully-populated request object becomes. -/
def scaleInRec (sc : ScaleIn) : ScaleRec :=
  { id := sc.id.getD 0, name := sc.name.getD "",
    category := sc.category,
    enabled := if sc.enabled.getD true then 1 else 0,
    instructions := sc.instructions.getD "" }

/-- The JSON view the client gets back for such a row. -/
def scaleInOut (sc : ScaleIn) : ScaleOut :=
  { id := sc.id.getD 0, name := sc.name.getD "",
    category := sc.category, enabled := sc.enabled.getD true,
    instructions := sc.instructions.getD "" }

/-- The model row a defaults/request object becomes. -/
def modelInRec (mi : ModelIn) : ModelRec :=
  { id := mi.id, name := mi.name.getD "", provider := mi.provider.getD "" }

/-- The scale row PUT `/api/prompts/scales/<id>` leaves behind: every non-id
column taken from the request body, with the handler's defaults for the
missing ones. -/
def updScaleRec (i : Int) (nm : String) (d : ScaleUpdate) : ScaleRec :=
  { id := i, name := nm, category := d.category,
    enabled := if d.enabled.getD true then 1 else 0,
    instructions := d.instructions.getD "" }

/-! ## Concrete instances used by counterexamples and witnesses -/

/-- A stored scale row with every column populated. -/
def c3Row : ScaleRec := { id := 1, name := "A", category := some "C", enabled := 1, instructions := "I" }

/-- A store holding exactly `c3Row`. -/
def c3State : State := { emptyState with scales := [c3Row] }

/-- A PUT body supplying only `name`. -/
def c3Patch : ScaleUpdate := { name := some "B", category := none, enabled := none, instructions := none }

/-- A PUT body supplying only `category`. -/
def c3PatchNoName : ScaleUpdate := { name := none, category := some "X", enabled := none, instructions := none }

/-- Two history payloads. -/
def c4e1 : Payload := [("candidateName", .jstr "A")]

/-- See `c4e1`. -/
def c4e2 : Payload := [("candidateName", .jstr "B")]

/-- A replace-all scales body with explicit unique ids, listed out of
order. -/
def c1Scales : List ScaleIn :=
  [{ id := some 2, name := some "B", category := some "cb", enabled := some true, instructions := some "ib" },
   { id := some 1, name := some "A", category := some "ca", enabled := some false, instructions := some "ia" }]

/-- A model body with a caller-supplied id. -/
def c5Model : ModelIn := { id := some "gpt", name := some "GPT", provider := some "openai" }

/-- A store holding one model. -/
def c8State : State :=
  { emptyState with models := [{ id := some "a", name := "A", provider := "p" }] }

/-- A store holding one history row whose `data` is not parseable JSON. -/
def c7State : State :=
  { emptyState with history := [{ id := 1, data := .corrupt "not json", created_at := 0 }] }

/-- A store holding a corrupt row next to a parseable one. -/
def c7State2 : State :=
  { emptyState with history :=
      [{ id := 1, data := .corrupt "not json", created_at := 0 },
       { id := 2, data := .doc c4e1, created_at := 3 }] }

/-- A defaults document exercising present and absent keys, an explicit
scale id and an explicit model id. -/
def c9Doc : DefaultsDoc :=
  { systemPrompt := some "sp", personalityPrompt := none, requirementsPrompt := some "rp",
    scales := [{ id := some 4, name := some "S", category := some "c", enabled := some true, instructions := some "i" }],
    models := [{ id := some "m1", name := some "M", provider := none }] }

/-- A store whose scales table is non-empty (suppresses seeding). -/
def c9StateNonempty : State := { emptyState with scales := [c3Row] }

/-- A store holding one parseable history row. -/
def c10State : State :=
  { emptyState with history := [{ id := 3, data := .doc [("x", .jstr "y")], created_at := 7 }] }

/-- A replace-all history body whose single item carries an `id` key. -/
def c10Items : List Payload := [[("id", .jnum 9), ("x", .jstr "y")]]

/-- The store after upserting `c5Model` into the empty store (once or
twice). -/
def c5State1 : State :=
  { emptyState with models := [{ id := some "gpt", name := "GPT", provider := "openai" }] }

/-- The store `load_defaults` produces from the empty store and `c9Doc`. -/
def c9Seeded : State :=
  { settings := [("systemPrompt", "sp"), ("requirementsPrompt", "rp")],
    scales := [{ id := 4, name := "S", category := some "c", enabled := 1, instructions := "i" }],
    models := [{ id := some "m1", name := "M", provider := "" }],
    history := [] }

end Liti

/-! # Theorems -/

namespace Liti

/-! ## Helper lemmas -/

theorem le_foldl_max (ids : List Int) : ∀ a : Int, a ≤ ids.foldl max a := by
  induction ids with
  | nil => intro a; exact le_refl a
  | cons x xs ih => intro a; exact le_trans (le_max_left a x) (ih (max a x))

theorem mem_le_foldl_max (ids : List Int) :
    ∀ (a x : Int), x ∈ ids → x ≤ ids.foldl max a := by
  induction ids with
  | nil => intro a x hx; cases hx
  | cons y ys ih =>
    intro a x hx
    rcases List.mem_cons.mp hx with h | h
    · subst h; exact le_trans (le_max_right a x) (le_foldl_max ys (max a x))
    · exact ih (max a y) x h

/-- The rowid SQLite assigns to an id-less insert is fresh. -/
theorem nextId_not_mem (ids : List Int) : nextId ids ∉ ids := by
  intro h
  have hle := mem_le_foldl_max ids 0 _ h
  simp only [nextId] at hle
  omega

instance : IsTotal ScaleRec (fun a b => a.id ≤ b.id) :=
  ⟨fun a b => le_total a.id b.id⟩

instance : IsTrans ScaleRec (fun a b => a.id ≤ b.id) :=
  ⟨fun _ _ _ h1 h2 => le_trans h1 h2⟩

instance : IsTotal HistRow (fun a b => a.id ≤ b.id) :=
  ⟨fun a b => le_total a.id b.id⟩

instance : IsTrans HistRow (fun a b => a.id ≤ b.id) :=
  ⟨fun _ _ _ h1 h2 => le_trans h1 h2⟩

instance : IsTotal HistRow (fun a b => b.created_at ≤ a.created_at) :=
  ⟨fun a b => le_total b.created_at a.created_at⟩

instance : IsTrans HistRow (fun a b => b.created_at ≤ a.created_at) :=
  ⟨fun _ _ _ h1 h2 => le_trans h2 h1⟩

/-! ## C2 -/

/-- C2: `POST /api/reset-to-defaults` is idempotent.  The handler's result
does not depend on the starting state at all — it clears the four tables and
reseeds from the defaults document — so running it twice with the same
document equals running it once, both as whole states and as the four
`getAll` views, and running it from any state equals running it from the
empty store. -/
theorem reset_to_defaults_idempotent (s : State) (doc : Option DefaultsDoc) :
    reset_to_defaults (reset_to_defaults s doc) doc = reset_to_defaults s doc ∧
    get_settings (reset_to_defaults (reset_to_defaults s doc) doc) =
      get_settings (reset_to_defaults s doc) ∧
    get_scales (reset_to_defaults (reset_to_defaults s doc) doc) =
      get_scales (reset_to_defaults s doc) ∧
    get_models (reset_to_defaults (reset_to_defaults s doc) doc) =
      get_models (reset_to_defaults s doc) ∧
    get_history (reset_to_defaults (reset_to_defaults s doc) doc) =
      get_history (reset_to_defaults s doc) ∧
    reset_to_defaults s doc = reset_to_defaults emptyState doc :=
  ⟨rfl, rfl, rfl, rfl, rfl, rfl⟩

/-! ## C6 -/

/-- C6 counterexample: GET `/api/settings/<key>` for a key never written and
never seeded does not answer the structured 404 claimed by the spec; on the
empty store it answers HTTP 200 with the body mapping the key to null. -/
theorem get_setting_absent_cex :
    get_setting emptyState "apiKey" = (200, "apiKey", .jnull) ∧ (200 : Nat) ≠ 404 :=
  ⟨rfl, by decide⟩

/-- C6 amended: GET `/api/settings/<key>` always answers HTTP 200, and for an
absent key the body maps the key to null — there is no 404 branch in the
handler. -/
theorem get_setting_absent_returns_null :
    (∀ (s : State) (key : String), (get_setting s key).1 = 200) ∧
    (∀ (s : State) (key : String), settingVal s.settings key = none →
      get_setting s key = (200, key, .jnull)) := by
  constructor
  · intro s key; rfl
  · intro s key h
    simp [get_setting, h]

/-- Witness for the amended C6 theorem at the empty store. -/
theorem get_setting_absent_returns_null_witness :
    settingVal emptyState.settings "apiKey" = none ∧
    get_setting emptyState "apiKey" = (200, "apiKey", .jnull) :=
  ⟨rfl, get_setting_absent_returns_null.2 emptyState "apiKey" rfl⟩

/-! ## C3 -/

/-- C3 counterexample: PUT `/api/prompts/scales/1` with a body supplying only
`name` does not merge.  The stored row's `category` was `some "C"`; after the
update it is `none` (the field was overwritten with the missing body field),
refuting "fields not supplied are left unchanged".  And updating an id that
does not exist answers plain success, not the claimed structured 404. -/
theorem update_scale_ignores_omitted_fields_cex :
    update_scale c3State 1 c3Patch =
      .ok { emptyState with scales := [{ id := 1, name := "B", category := none, enabled := 1, instructions := "" }] } ∧
    c3Row.category = some "C" ∧ (some "C" : Option String) ≠ none ∧
    update_scale emptyState 7 c3Patch = .ok emptyState :=
  ⟨rfl, rfl, by decide, rfl⟩

/-- C3 amended: the PUT handler performs a whole-row overwrite, not a merge:
on a matching row every non-id column is set from the request body (missing
`category` becomes NULL, missing `enabled` becomes 1, missing `instructions`
becomes the empty string); a missing id is a silent no-op success, never a
404; and a matching row with a missing `name` is a NOT NULL constraint
error. -/
theorem update_scale_overwrites_all_fields :
    (∀ (s : State) (i : Int) (d : ScaleUpdate) (nm : String), d.name = some nm →
      ∀ r ∈ s.scales, r.id = i →
        ∃ s', update_scale s i d = .ok s' ∧ updScaleRec i nm d ∈ s'.scales) ∧
    (∀ (s : State) (i : Int) (d : ScaleUpdate),
      (∀ r ∈ s.scales, r.id ≠ i) → update_scale s i d = .ok s) ∧
    (∀ (s : State) (i : Int) (d : ScaleUpdate), d.name = none →
      (∃ r ∈ s.scales, r.id = i) → update_scale s i d = .error ()) := by
  refine ⟨?_, ?_, ?_⟩
  · intro s i d nm hnm r hr hri
    have hfind : (s.scales.find? (fun r => r.id == i)).isSome := by
      rw [List.find?_isSome]
      exact ⟨r, hr, by simp [hri]⟩
    have hupd : update_scale s i d = .ok { s with scales := s.scales.map (fun r =>
        if r.id == i then
          { r with name := nm, category := d.category,
                   enabled := if d.enabled.getD true then 1 else 0,
                   instructions := d.instructions.getD "" }
        else r) } := by
      simp only [update_scale, hfind, if_true, hnm]
    refine ⟨_, hupd, ?_⟩
    refine List.mem_map.mpr ⟨r, hr, ?_⟩
    subst hri
    simp [updScaleRec]
  · intro s i d h
    have hfind : s.scales.find? (fun r => r.id == i) = none := by
      rw [List.find?_eq_none]
      intro r hr
      simp [h r hr]
    simp [update_scale, hfind]
  · intro s i d hnm ⟨r, hr, hri⟩
    have hfind : (s.scales.find? (fun r => r.id == i)).isSome := by
      rw [List.find?_isSome]
      exact ⟨r, hr, by simp [hri]⟩
    simp [update_scale, hfind, hnm]

/-- Witness for the amended C3 theorem: the overwrite on `c3State`, the no-op
on the empty store, and the NOT NULL failure. -/
theorem update_scale_overwrites_all_fields_witness :
    (∃ s', update_scale c3State 1 c3Patch = .ok s' ∧ updScaleRec 1 "B" c3Patch ∈ s'.scales) ∧
    update_scale emptyState 7 c3Patch = .ok emptyState ∧
    update_scale c3State 1 c3PatchNoName = .error () := by
  refine ⟨?_, ?_, ?_⟩
  · exact update_scale_overwrites_all_fields.1 c3State 1 c3Patch "B" rfl c3Row
      (by simp [c3State]) rfl
  · exact update_scale_overwrites_all_fields.2.1 emptyState 7 c3Patch
      (by intro r hr; simp [emptyState] at hr)
  · exact update_scale_overwrites_all_fields.2.2 c3State 1 c3PatchNoName rfl
      ⟨c3Row, by simp [c3State], rfl⟩

/-! ## C1 -/

theorem rowToOut_scaleInRec (sc : ScaleIn) :
    rowToOut (scaleInRec sc) = scaleInOut sc := by
  cases h : sc.enabled.getD true <;>
    simp [rowToOut, scaleInRec, scaleInOut, h]

theorem map_id_getD_eq_filterMap (S : List ScaleIn)
    (h : ∀ sc ∈ S, sc.id.isSome) :
    S.map (fun sc => sc.id.getD 0) = S.filterMap (fun sc => sc.id) := by
  induction S with
  | nil => rfl
  | cons sc rest ih =>
    obtain ⟨i, hi⟩ := Option.isSome_iff_exists.mp (h sc (List.mem_cons_self _ _))
    simp only [List.map_cons, List.filterMap_cons, hi, Option.getD_some,
      ih (fun x hx => h x (List.mem_cons_of_mem _ hx))]

/-- The replace-all insert loop, run on fully-populated scale objects with
pairwise distinct explicit ids, appends exactly the corresponding rows. -/
theorem saveScalesLoop_full :
    ∀ (S : List ScaleIn) (rows : List ScaleRec),
      (∀ sc ∈ S, sc.id.isSome ∧ sc.name.isSome) →
      (scaleIds rows ++ S.filterMap (fun sc => sc.id)).Nodup →
      saveScalesLoop rows S = .ok (rows ++ S.map scaleInRec) := by
  intro S
  induction S with
  | nil => intro rows _ _; simp [saveScalesLoop]
  | cons sc rest ih =>
    intro rows hfull hnd
    obtain ⟨hid, hnm⟩ := hfull sc (List.mem_cons_self _ _)
    obtain ⟨i, hi⟩ := Option.isSome_iff_exists.mp hid
    obtain ⟨nm, hn⟩ := Option.isSome_iff_exists.mp hnm
    have hrow : scaleInRow rows sc = .ok (scaleInRec sc) := by
      simp [scaleInRow, hn, scaleInRec, hi]
    have hid_eq : (scaleInRec sc).id = i := by simp [scaleInRec, hi]
    simp only [List.filterMap_cons, hi] at hnd
    have hnotmem : (scaleInRec sc).id ∉ scaleIds rows := by
      rw [hid_eq]
      intro hmem
      exact (List.nodup_append.mp hnd).2.2 hmem (List.mem_cons_self _ _)
    have hins : insertScaleRow rows (scaleInRec sc) = .ok (rows ++ [scaleInRec sc]) := by
      simp [insertScaleRow, hnotmem]
    have hnd' : (scaleIds (rows ++ [scaleInRec sc]) ++
        rest.filterMap (fun sc => sc.id)).Nodup := by
      have hids : scaleIds (rows ++ [scaleInRec sc]) = scaleIds rows ++ [i] := by
        simp [scaleIds, hid_eq]
      rw [hids, List.append_assoc, List.singleton_append]
      exact hnd
    have hrest : ∀ sc' ∈ rest, sc'.id.isSome ∧ sc'.name.isSome :=
      fun sc' h => hfull sc' (List.mem_cons_of_mem _ h)
    calc saveScalesLoop rows (sc :: rest)
        = saveScalesLoop (rows ++ [scaleInRec sc]) rest := by
          simp [saveScalesLoop, hrow, hins]
      _ = .ok ((rows ++ [scaleInRec sc]) ++ rest.map scaleInRec) := ih _ hrest hnd'
      _ = .ok (rows ++ (sc :: rest).map scaleInRec) := by
          simp

/-- C1: round-trip for scales.  Replacing all scales with a list S of
fully-populated records carrying pairwise distinct ids succeeds, and listing
then yields a permutation of exactly the records of S, sorted strictly
ascending by id. -/
theorem save_scales_roundtrip (s : State) (S : List ScaleIn)
    (hfull : ∀ sc ∈ S, sc.id.isSome ∧ sc.name.isSome)
    (hnodup : (S.filterMap (fun sc => sc.id)).Nodup) :
    ∃ s', save_scales s S = .ok s' ∧
      (get_scales s').Perm (S.map scaleInOut) ∧
      (get_scales s').Pairwise (fun a b => a.id < b.id) := by
  have hloop : saveScalesLoop [] S = .ok ([] ++ S.map scaleInRec) :=
    saveScalesLoop_full S [] hfull (by simpa [scaleIds] using hnodup)
  rw [List.nil_append] at hloop
  refine ⟨{ s with scales := S.map scaleInRec }, ?_, ?_, ?_⟩
  · simp [save_scales, hloop]
  · have hperm : (List.insertionSort (fun a b => a.id ≤ b.id)
        (S.map scaleInRec)).Perm (S.map scaleInRec) :=
      List.perm_insertionSort _ _
    have := hperm.map rowToOut
    simp only [get_scales]
    refine this.trans ?_
    rw [List.map_map]
    exact (List.map_congr_left (fun sc _ => rowToOut_scaleInRec sc)) ▸ List.Perm.refl _
  · have hsorted : (List.insertionSort (fun a b => a.id ≤ b.id)
        (S.map scaleInRec)).Pairwise (fun a b => a.id ≤ b.id) :=
      List.sorted_insertionSort _ _
    have hidsnodup : ((List.insertionSort (fun a b => a.id ≤ b.id)
        (S.map scaleInRec)).map (fun r => r.id)).Nodup := by
      refine ((List.perm_insertionSort _ _).map
        (fun r : ScaleRec => r.id)).nodup_iff.mpr ?_
      rw [List.map_map]
      have hmm : (S.map (fun sc => (scaleInRec sc).id)) =
          S.map (fun sc => sc.id.getD 0) := by
        exact List.map_congr_left (fun sc _ => by simp [scaleInRec])
      show (S.map ((fun r => r.id) ∘ scaleInRec)).Nodup
      rw [show ((fun (r : ScaleRec) => r.id) ∘ scaleInRec) =
          (fun sc => (scaleInRec sc).id) from rfl, hmm,
        map_id_getD_eq_filterMap S (fun sc h => (hfull sc h).1)]
      exact hnodup
    have hne : (List.insertionSort (fun a b => a.id ≤ b.id)
        (S.map scaleInRec)).Pairwise (fun a b => a.id ≠ b.id) :=
      List.pairwise_map.mp hidsnodup
    have hlt := (hsorted.and hne).imp
      (fun h => lt_of_le_of_ne h.1 h.2)
    simp only [get_scales]
    exact List.pairwise_map.mpr (hlt.imp (fun h => h))

/-- Witness for C1 at a concrete two-element body listed out of id order. -/
theorem save_scales_roundtrip_witness :
    (∀ sc ∈ c1Scales, sc.id.isSome ∧ sc.name.isSome) ∧
    (c1Scales.filterMap (fun sc => sc.id)).Nodup ∧
    ∃ s', save_scales emptyState c1Scales = .ok s' ∧
      (get_scales s').Perm (c1Scales.map scaleInOut) ∧
      (get_scales s').Pairwise (fun a b => a.id < b.id) :=
  ⟨by decide, by decide,
   save_scales_roundtrip emptyState c1Scales (by decide) (by decide)⟩

/-! ## C4 -/

/-- In a `Pairwise R` list containing two distinct elements `a` and `b` with
`¬ R a b`, `b` must occur before `a`. -/
theorem pairwise_pair_sublist {α : Type} {R : α → α → Prop} {a b : α}
    (hne : a ≠ b) (hnR : ¬ R a b) :
    ∀ {l : List α}, a ∈ l → b ∈ l → l.Pairwise R → [b, a].Sublist l := by
  intro l
  induction l with
  | nil => intro ha _ _; cases ha
  | cons x xs ih =>
    intro ha hb hp
    obtain ⟨hx, hxs⟩ := List.pairwise_cons.mp hp
    rcases List.mem_cons.mp ha with rfl | ha'
    · rcases List.mem_cons.mp hb with rfl | hb'
      · exact absurd rfl hne
      · exact absurd (hx b hb') hnR
    · rcases List.mem_cons.mp hb with rfl | hb'
      · exact List.Sublist.cons₂ _ (List.singleton_sublist.mpr ha')
      · exact List.Sublist.cons _ (ih ha' hb' hxs)

/-- Two parseable history rows are listed with the strictly-later one first,
whatever else the table holds. -/
theorem get_history_rel_order (s : State) (r1 r2 : HistRow) (e1 e2 : Payload)
    (h1 : r1 ∈ s.history) (h2 : r2 ∈ s.history) (hne : r1 ≠ r2)
    (hd1 : r1.data = .doc e1) (hd2 : r2.data = .doc e2)
    (ht : r1.created_at < r2.created_at) :
    [setKey e2 "id" (.jnum r2.id), setKey e1 "id" (.jnum r1.id)].Sublist
      (get_history s) := by
  have hm1 : r1 ∈ histSorted s := by
    simp only [histSorted, histScan, List.mem_insertionSort]; exact h1
  have hm2 : r2 ∈ histSorted s := by
    simp only [histSorted, histScan, List.mem_insertionSort]; exact h2
  have hp : (histSorted s).Pairwise (fun a b => b.created_at ≤ a.created_at) :=
    List.sorted_insertionSort _ _
  have hnR : ¬ (r2.created_at ≤ r1.created_at) := by omega
  have hsub : [r2, r1].Sublist (histSorted s) :=
    pairwise_pair_sublist hne hnR hm1 hm2 hp
  have hfm := hsub.filterMap (fun row =>
    match jsonLoads row.data with
    | some item => some (setKey item "id" (.jnum row.id))
    | none => none)
  simpa [get_history, List.filterMap_cons, hd1, hd2, jsonLoads] using hfm

/-- C4 counterexample: the listing is ordered by `created_at` alone, and
`CURRENT_TIMESTAMP` has one-second resolution.  Adding e1 and then e2 within
the same second (both rows get timestamp 5) makes GET `/api/history` return
e1's entry first, not e2's, refuting "e2 before e1" as stated. -/
theorem add_history_same_second_cex :
    get_history ((add_history ((add_history emptyState c4e1 5).1) c4e2 5).1) =
      [[("candidateName", .jstr "A"), ("id", .jnum 1)],
       [("candidateName", .jstr "B"), ("id", .jnum 2)]] ∧
    ([("candidateName", .jstr "A"), ("id", .jnum 1)] : Payload) ≠
      [("candidateName", .jstr "B"), ("id", .jnum 2)] :=
  ⟨rfl, by decide⟩

/-- C4 amended: after `addHistory(e1)` and then `addHistory(e2)`, the listing
returns e2's entry before e1's provided e2's `created_at` is strictly later
than e1's; rows sharing a timestamp come back in table-scan order (ascending
id), so the newest-first guarantee holds only across distinct seconds. -/
theorem add_history_newest_first (s : State) (e1 e2 : Payload) (t1 t2 : Nat)
    (h : t1 < t2) :
    [setKey e2 "id" (.jnum (add_history (add_history s e1 t1).1 e2 t2).2),
     setKey e1 "id" (.jnum (add_history s e1 t1).2)].Sublist
      (get_history (add_history (add_history s e1 t1).1 e2 t2).1) := by
  have hi2ne : nextId (histIds (s.history ++ [⟨nextId (histIds s.history), .doc e1, t1⟩])) ≠
      nextId (histIds s.history) := by
    intro he
    apply nextId_not_mem (histIds (s.history ++ [⟨nextId (histIds s.history), .doc e1, t1⟩]))
    rw [he]
    simp [histIds]
  refine get_history_rel_order _ ⟨nextId (histIds s.history), .doc e1, t1⟩
    ⟨nextId (histIds (s.history ++ [⟨nextId (histIds s.history), .doc e1, t1⟩])), .doc e2, t2⟩
    e1 e2 ?_ ?_ ?_ rfl rfl h
  · simp [add_history]
  · simp [add_history]
  · intro he
    exact hi2ne (congrArg HistRow.id he).symm

/-- Witness for the amended C4 theorem at concrete payloads and strictly
increasing timestamps. -/
theorem add_history_newest_first_witness :
    (1 : Nat) < 2 ∧
    [setKey c4e2 "id" (.jnum (add_history (add_history emptyState c4e1 1).1 c4e2 2).2),
     setKey c4e1 "id" (.jnum (add_history emptyState c4e1 1).2)].Sublist
      (get_history (add_history (add_history emptyState c4e1 1).1 c4e2 2).1) :=
  ⟨by decide, add_history_newest_first emptyState c4e1 c4e2 1 2 (by decide)⟩

/-! ## C7 -/

/-- C7 counterexample: a corrupt stored row is NOT always recovered
silently.  GET `/api/history` does skip it, but GET `/api/history/1` runs
`json.loads` with no handler and the parse failure escapes as a fatal
error. -/
theorem corrupt_history_surfaced_cex :
    get_history_item c7State 1 = .error () ∧ get_history c7State = [] :=
  ⟨rfl, rfl⟩

/-- C7 amended: GET `/api/history` silently drops unparseable rows — every
parseable row still comes back — while GET `/api/history/{id}` on a row
whose `data` does not parse propagates the parse failure as a fatal error
instead of recovering. -/
theorem corrupt_history_handling :
    (∀ (s : State) (row : HistRow) (item : Payload), row ∈ s.history →
       jsonLoads row.data = some item →
       setKey item "id" (.jnum row.id) ∈ get_history s) ∧
    (∀ (s : State) (i : Int) (row : HistRow),
       s.history.find? (fun r => r.id == i) = some row →
       jsonLoads row.data = none → get_history_item s i = .error ()) := by
  constructor
  · intro s row item hmem hparse
    have hm : row ∈ histSorted s := by
      simp only [histSorted, histScan, List.mem_insertionSort]; exact hmem
    refine List.mem_filterMap.mpr ⟨row, hm, ?_⟩
    simp [hparse]
  · intro s i row hfind hparse
    simp [get_history_item, hfind, hparse]

/-- Witness for the amended C7 theorem on a store holding a corrupt row next
to a parseable one. -/
theorem corrupt_history_handling_witness :
    ((⟨2, .doc c4e1, 3⟩ : HistRow) ∈ c7State2.history ∧
     setKey c4e1 "id" (.jnum 2) ∈ get_history c7State2) ∧
    (c7State2.history.find? (fun r => r.id == 1) =
       some ⟨1, .corrupt "not json", 0⟩ ∧
     get_history_item c7State2 1 = .error ()) :=
  ⟨⟨by decide,
    corrupt_history_handling.1 c7State2 ⟨2, .doc c4e1, 3⟩ c4e1 (by decide) rfl⟩,
   ⟨rfl,
    corrupt_history_handling.2 c7State2 1 ⟨1, .corrupt "not json", 0⟩ rfl rfl⟩⟩

/-! ## C10 -/

theorem lookupKey_setKey (item : Payload) (k : String) (v : JVal) :
    lookupKey (setKey item k v) k = some v := by
  induction item with
  | nil => simp [setKey, lookupKey, List.find?]
  | cons kv rest ih =>
    by_cases h : (kv.1 == k) = true
    · simp [setKey, h, lookupKey, List.find?]
    · simp only [setKey, h, if_false, Bool.false_eq_true]
      simp only [lookupKey, List.find?] at ih ⊢
      rw [show (kv.1 == k) = false by simpa using h]
      exact ih

theorem lookupKey_eq_none_of_not_mem (item : Payload) (k : String)
    (h : k ∉ item.map Prod.fst) : lookupKey item k = none := by
  unfold lookupKey
  rw [List.find?_eq_none.mpr]
  · rfl
  · intro kv hkv hbeq
    exact h (List.mem_map.mpr ⟨kv, hkv, by simpa using hbeq⟩)

/-- Popping a key off a dict leaves a dict without that key. -/
theorem lookupKey_popKey (item : Payload) (k : String)
    (hnd : (item.map Prod.fst).Nodup) :
    lookupKey (popKey item k).2 k = none := by
  induction item with
  | nil => rfl
  | cons kv rest ih =>
    simp only [List.map_cons, List.nodup_cons] at hnd
    by_cases h : (kv.1 == k) = true
    · simp only [popKey, h, if_true]
      apply lookupKey_eq_none_of_not_mem
      rw [show k = kv.1 by simpa using (beq_iff_eq.mp h).symm]
      exact hnd.1
    · simp only [popKey, h, if_false, Bool.false_eq_true]
      simp only [lookupKey, List.find?] at ih ⊢
      rw [show (kv.1 == k) = false by simpa using h]
      exact ih hnd.2

/-- The replace-all history loop stores only id-stripped payloads. -/
theorem saveHistoryLoop_stripped (now : Nat) :
    ∀ (items : List Payload) (rows rows' : List HistRow),
      (∀ item ∈ items, (item.map Prod.fst).Nodup) →
      saveHistoryLoop now rows items = .ok rows' →
      (∀ row ∈ rows, ∃ p, row.data = .doc p ∧ lookupKey p "id" = none) →
      ∀ row ∈ rows', ∃ p, row.data = .doc p ∧ lookupKey p "id" = none := by
  intro items
  induction items with
  | nil =>
    intro rows rows' _ h hrows
    simp only [saveHistoryLoop] at h
    cases h
    exact hrows
  | cons item rest ih =>
    intro rows rows' hnd h hrows
    simp only [saveHistoryLoop] at h
    split at h
    · cases h
    · rename_i idOpt hpop
      split at h
      · cases h
      · rename_i rows1 hins
        refine ih rows1 rows' (fun x hx => hnd x (List.mem_cons_of_mem _ hx)) h ?_
        simp only [insertHistRow] at hins
        split at hins
        · cases hins
        · injection hins with h2
          subst h2
          intro row hrow
          rcases List.mem_append.mp hrow with h1 | h1
          · exact hrows row h1
          · rw [List.mem_singleton.mp h1]
            exact ⟨(popKey item "id").2, rfl,
              lookupKey_popKey item "id" (hnd item (List.mem_cons_self _ _))⟩

/-- C10: the row's integer primary key is the authoritative identity of a
history entry.  Every entry listed by GET `/api/history` is a parseable
row's payload with the row id written into its `id` key; GET
`/api/history/{id}` returns an item whose `id` key equals the requested row
id; and replace-all (POST `/api/history`) pops any caller-supplied `id` off
the payload before storing it. -/
theorem history_id_authoritative :
    (∀ (s : State) (item : Payload), item ∈ get_history s →
       ∃ row ∈ s.history, ∃ p, jsonLoads row.data = some p ∧
         item = setKey p "id" (.jnum row.id) ∧
         lookupKey item "id" = some (.jnum row.id)) ∧
    (∀ (s : State) (i : Int) (item : Payload),
       get_history_item s i = .ok (.found item) →
       lookupKey item "id" = some (.jnum i)) ∧
    (∀ (s : State) (items : List Payload) (now : Nat) (s' : State),
       (∀ item ∈ items, (item.map Prod.fst).Nodup) →
       save_history s items now = .ok s' →
       ∀ row ∈ s'.history, ∃ p, row.data = .doc p ∧ lookupKey p "id" = none) := by
  refine ⟨?_, ?_, ?_⟩
  · intro s item hmem
    obtain ⟨row, hrow, hf⟩ := List.mem_filterMap.mp hmem
    cases hparse : jsonLoads row.data with
    | none => rw [hparse] at hf; cases hf
    | some p =>
      rw [hparse] at hf
      injection hf with hf2
      refine ⟨row, ?_, p, hparse, hf2.symm, ?_⟩
      · have : row ∈ histScan s := (List.mem_insertionSort _).mp hrow
        exact (List.mem_insertionSort _).mp this
      · rw [← hf2]
        exact lookupKey_setKey p "id" (.jnum row.id)
  · intro s i item h
    unfold get_history_item at h
    split at h
    · rename_i row hfind
      split at h
      · rename_i p hparse
        injection h with h1
        injection h1 with h2
        have hri : row.id = i := by simpa using List.find?_some hfind
        rw [← h2, ← hri]
        exact lookupKey_setKey p "id" (.jnum row.id)
      · cases h
    · injection h with h1
      cases h1
  · intro s items now s' hnd h
    unfold save_history at h
    split at h
    · cases h
    · rename_i rows hloop
      injection h with h1
      subst h1
      exact saveHistoryLoop_stripped now items [] rows hnd hloop
        (fun row hr => absurd hr (List.not_mem_nil row))

/-- Witness for C10 on a one-row store and a one-item replace-all body whose
item carries an `id` key. -/
theorem history_id_authoritative_witness :
    (∃ row ∈ c10State.history, ∃ p, jsonLoads row.data = some p ∧
       ([("x", .jstr "y"), ("id", .jnum 3)] : Payload) = setKey p "id" (.jnum row.id) ∧
       lookupKey [("x", .jstr "y"), ("id", .jnum 3)] "id" = some (.jnum row.id)) ∧
    lookupKey [("x", .jstr "y"), ("id", .jnum 3)] "id" = some (.jnum 3) ∧
    (∀ row ∈ ({ emptyState with history := [⟨9, .doc [("x", .jstr "y")], 7⟩] } : State).history,
       ∃ p, row.data = .doc p ∧ lookupKey p "id" = none) :=
  ⟨history_id_authoritative.1 c10State _ (by decide),
   history_id_authoritative.2.1 c10State 3 _ rfl,
   history_id_authoritative.2.2 emptyState c10Items 7 _ (by decide) rfl⟩

/-! ## C5 -/

theorem scaleIds_append (a b : List ScaleRec) :
    scaleIds (a ++ b) = scaleIds a ++ scaleIds b := List.map_append _ _ _

theorem modelIds_append (a b : List ModelRec) :
    modelIds (a ++ b) = modelIds a ++ modelIds b := List.filterMap_append _ _ _

theorem scaleIds_filter_sublist (p : ScaleRec → Bool) (rows : List ScaleRec) :
    (scaleIds (rows.filter p)).Sublist (scaleIds rows) := by
  unfold scaleIds
  exact (List.filter_sublist rows).map (fun r => r.id)

theorem modelIds_filter_sublist (p : ModelRec → Bool) (rows : List ModelRec) :
    (modelIds (rows.filter p)).Sublist (modelIds rows) := by
  unfold modelIds
  exact List.Sublist.filterMap (fun r => r.id) (List.filter_sublist rows)

theorem nodup_insertScaleRow (rows rows' : List ScaleRec) (r : ScaleRec)
    (h : insertScaleRow rows r = .ok rows') (hnd : (scaleIds rows).Nodup) :
    (scaleIds rows').Nodup := by
  simp only [insertScaleRow] at h
  split at h
  · cases h
  · rename_i hmem
    injection h with h1
    subst h1
    rw [scaleIds_append, List.nodup_append]
    refine ⟨hnd, List.nodup_singleton _, fun x hx hx2 => ?_⟩
    rw [show scaleIds [r] = [r.id] from rfl, List.mem_singleton] at hx2
    subst hx2
    exact hmem hx

theorem nodup_upsertScaleRow (rows : List ScaleRec) (r : ScaleRec)
    (hnd : (scaleIds rows).Nodup) : (scaleIds (upsertScaleRow rows r)).Nodup := by
  unfold upsertScaleRow
  rw [scaleIds_append, List.nodup_append]
  refine ⟨?_, List.nodup_singleton _, fun x hx hx2 => ?_⟩
  · exact List.Nodup.sublist (scaleIds_filter_sublist _ rows) hnd
  · rw [show scaleIds [r] = [r.id] from rfl, List.mem_singleton] at hx2
    obtain ⟨y, hy, hyx⟩ := List.mem_map.mp hx
    have hne := (List.mem_filter.mp hy).2
    rw [bne_iff_ne] at hne
    exact hne (hyx.trans hx2)

theorem nodup_saveScalesLoop :
    ∀ (S : List ScaleIn) (rows rows' : List ScaleRec),
      saveScalesLoop rows S = .ok rows' → (scaleIds rows).Nodup →
      (scaleIds rows').Nodup := by
  intro S
  induction S with
  | nil =>
    intro rows rows' h hnd
    simp only [saveScalesLoop] at h
    cases h
    exact hnd
  | cons sc rest ih =>
    intro rows rows' h hnd
    simp only [saveScalesLoop] at h
    split at h
    · cases h
    · rename_i r hr
      split at h
      · cases h
      · rename_i rows1 hins
        exact ih rows1 rows' h (nodup_insertScaleRow rows rows1 r hins hnd)

theorem nodup_seedScales :
    ∀ (S : List ScaleIn) (rows rows' : List ScaleRec),
      seedScales rows S = .ok rows' → (scaleIds rows).Nodup →
      (scaleIds rows').Nodup := by
  intro S
  induction S with
  | nil =>
    intro rows rows' h hnd
    simp only [seedScales] at h
    cases h
    exact hnd
  | cons sc rest ih =>
    intro rows rows' h hnd
    simp only [seedScales] at h
    split at h
    · cases h
    · rename_i r hr
      exact ih (upsertScaleRow rows r) rows' h (nodup_upsertScaleRow rows r hnd)

theorem nodup_insertModelRow (rows rows' : List ModelRec) (m : ModelRec)
    (h : insertModelRow rows m = .ok rows') (hnd : (modelIds rows).Nodup) :
    (modelIds rows').Nodup := by
  simp only [insertModelRow] at h
  split at h
  · rename_i i heq
    split at h
    · cases h
    · rename_i hmem
      injection h with h1
      subst h1
      rw [modelIds_append, List.nodup_append]
      refine ⟨hnd, ?_, fun x hx hx2 => ?_⟩
      · rw [show modelIds [m] = [m].filterMap (fun r => r.id) from rfl]
        simp [heq]
      · rw [show modelIds [m] = [m].filterMap (fun r => r.id) from rfl] at hx2
        simp only [List.filterMap_cons, heq, List.filterMap_nil] at hx2
        rw [List.mem_singleton] at hx2
        subst hx2
        exact hmem hx
  · rename_i heq
    injection h with h1
    subst h1
    rw [modelIds_append]
    have : modelIds [m] = [] := by
      rw [show modelIds [m] = [m].filterMap (fun r => r.id) from rfl]
      simp [heq]
    rw [this, List.append_nil]
    exact hnd

theorem nodup_upsertModel (rows : List ModelRec) (m : ModelRec)
    (hnd : (modelIds rows).Nodup) : (modelIds (upsertModel rows m)).Nodup := by
  unfold upsertModel
  split
  · rename_i i heq
    rw [modelIds_append, List.nodup_append]
    refine ⟨?_, ?_, fun x hx hx2 => ?_⟩
    · exact List.Nodup.sublist (modelIds_filter_sublist _ rows) hnd
    · rw [show modelIds [m] = [m].filterMap (fun r => r.id) from rfl]
      simp [heq]
    · rw [show modelIds [m] = [m].filterMap (fun r => r.id) from rfl] at hx2
      simp only [List.filterMap_cons, heq, List.filterMap_nil] at hx2
      rw [List.mem_singleton] at hx2
      subst hx2
      obtain ⟨y, hy, hyx⟩ := List.mem_filterMap.mp hx
      have hne := (List.mem_filter.mp hy).2
      rw [bne_iff_ne] at hne
      exact hne (hyx ▸ rfl)
  · rename_i heq
    rw [modelIds_append]
    have : modelIds [m] = [] := by
      rw [show modelIds [m] = [m].filterMap (fun r => r.id) from rfl]
      simp [heq]
    rw [this, List.append_nil]
    exact hnd

theorem nodup_saveModelsLoop :
    ∀ (S : List ModelIn) (rows rows' : List ModelRec),
      saveModelsLoop rows S = .ok rows' → (modelIds rows).Nodup →
      (modelIds rows').Nodup := by
  intro S
  induction S with
  | nil =>
    intro rows rows' h hnd
    simp only [saveModelsLoop] at h
    cases h
    exact hnd
  | cons mi rest ih =>
    intro rows rows' h hnd
    simp only [saveModelsLoop] at h
    split at h
    · cases h
    · rename_i m hm
      split at h
      · cases h
      · rename_i rows1 hins
        exact ih rows1 rows' h (nodup_insertModelRow rows rows1 m hins hnd)

theorem nodup_seedModels :
    ∀ (S : List ModelIn) (rows rows' : List ModelRec),
      seedModels rows S = .ok rows' → (modelIds rows).Nodup →
      (modelIds rows').Nodup := by
  intro S
  induction S with
  | nil =>
    intro rows rows' h hnd
    simp only [seedModels] at h
    cases h
    exact hnd
  | cons mi rest ih =>
    intro rows rows' h hnd
    simp only [seedModels] at h
    split at h
    · cases h
    · rename_i m hm
      exact ih (upsertModel rows m) rows' h (nodup_upsertModel rows m hnd)

theorem scaleIds_map_id_preserving (rows : List ScaleRec) (f : ScaleRec → ScaleRec)
    (hf : ∀ r, (f r).id = r.id) : scaleIds (rows.map f) = scaleIds rows := by
  unfold scaleIds
  rw [List.map_map]
  exact List.map_congr_left (fun r _ => hf r)

/-- Seeding preserves primary-key uniqueness of scales and models. -/
theorem uniqueIds_load_defaults (s : State) (doc : Option DefaultsDoc) (s' : State)
    (h : load_defaults s doc = .ok s') (hu : UniqueIds s) : UniqueIds s' := by
  simp only [load_defaults] at h
  split at h
  · cases h
  · rename_i scales hsc
    split at h
    · cases h
    · rename_i models hmd
      injection h with he
      subst he
      exact ⟨nodup_seedScales _ _ _ hsc hu.1, nodup_seedModels _ _ _ hmd hu.2⟩

/-- An upsert leaves exactly one row carrying the upserted (non-NULL) id,
whatever the table held before. -/
theorem count_upsertModel (rows : List ModelRec) (m : ModelRec) (i : String)
    (hid : m.id = some i) :
    ((upsertModel rows m).filter (fun r => r.id == some i)).length = 1 := by
  unfold upsertModel
  rw [hid, List.filter_append]
  have h1 : (rows.filter (fun r => r.id != some i)).filter
      (fun r => r.id == some i) = [] := by
    rw [List.filter_eq_nil_iff]
    intro a ha
    have := (List.mem_filter.mp ha).2
    simp only [bne_iff_ne, ne_eq] at this
    simp [this]
  have h2 : [m].filter (fun r => r.id == some i) = [m] := by
    simp [hid]
  rw [h1, h2]
  rfl

/-- C5: upsert-no-duplication and id uniqueness.  (1) Calling the model
upsert twice with a model carrying id `i` leaves exactly one stored record
with that id.  (2) Every mutating operation of the server preserves the
invariant that scale ids and (non-NULL) model ids are pairwise distinct. -/
theorem model_upsert_unique :
    (∀ (s : State) (m : ModelIn) (i : String) (s1 s2 : State), m.id = some i →
       add_model s m = .ok s1 → add_model s1 m = .ok s2 →
       (s2.models.filter (fun r => r.id == some i)).length = 1) ∧
    (∀ (s : State) (op : Op) (s' : State), UniqueIds s → step s op = .ok s' →
       UniqueIds s') := by
  constructor
  · intro s m i s1 s2 hid _h1 h2
    unfold add_model at h2
    split at h2
    · cases h2
    · rename_i mr hmr
      injection h2 with h2e
      subst h2e
      have hmi : mr.id = some i := by
        simp only [modelInRow] at hmr
        split at hmr
        · cases hmr
        · injection hmr with he
          subst he
          exact hid
      exact count_upsertModel s1.models mr i hmi
  · intro s op s' hu h
    cases op with
    | saveSettings d =>
      injection h with he; subst he; exact hu
    | saveSetting k v =>
      injection h with he; subst he; exact hu
    | savePrompts a b c =>
      injection h with he; subst he; exact hu
    | saveSystemPrompt v =>
      injection h with he; subst he; exact hu
    | saveScales sc =>
      simp only [step] at h
      unfold save_scales at h
      split at h
      · cases h
      · rename_i rows hloop
        injection h with he; subst he
        exact ⟨nodup_saveScalesLoop sc [] rows hloop List.nodup_nil, hu.2⟩
    | updateScale i d =>
      simp only [step] at h
      unfold update_scale at h
      split at h
      · split at h
        · cases h
        · rename_i nm hnm
          injection h with he; subst he
          refine ⟨?_, hu.2⟩
          rw [scaleIds_map_id_preserving]
          · exact hu.1
          · intro r
            by_cases hr : (r.id == i) = true <;> simp [hr]
      · injection h with he; subst he; exact hu
    | deleteScale i =>
      injection h with he; subst he
      exact ⟨List.Nodup.sublist (scaleIds_filter_sublist _ s.scales) hu.1, hu.2⟩
    | addScale d =>
      simp only [step] at h
      split at h
      · cases h
      · rename_i p hp
        injection h with he; subst he
        unfold add_scale at hp
        split at hp
        · cases hp
        · rename_i nm hnm
          injection hp with hpe
          subst hpe
          refine ⟨?_, hu.2⟩
          rw [scaleIds_append, List.nodup_append]
          refine ⟨hu.1, List.nodup_singleton _, fun x hx hx2 => ?_⟩
          simp only [scaleIds, List.map_cons, List.map_nil, List.mem_singleton] at hx2
          subst hx2
          exact nextId_not_mem (scaleIds s.scales) hx
    | saveModels ms =>
      simp only [step] at h
      unfold save_models at h
      split at h
      · cases h
      · rename_i rows hloop
        injection h with he; subst he
        exact ⟨hu.1, nodup_saveModelsLoop ms [] rows hloop List.nodup_nil⟩
    | addModel m =>
      simp only [step] at h
      unfold add_model at h
      split at h
      · cases h
      · rename_i mr hmr
        injection h with he; subst he
        exact ⟨hu.1, nodup_upsertModel s.models mr hu.2⟩
    | deleteModel i =>
      injection h with he; subst he
      exact ⟨hu.1, List.Nodup.sublist (modelIds_filter_sublist _ s.models) hu.2⟩
    | saveHistory items now =>
      simp only [step] at h
      unfold save_history at h
      split at h
      · cases h
      · rename_i rows hloop
        injection h with he; subst he
        exact hu
    | addHistory d now =>
      injection h with he; subst he; exact hu
    | deleteHistory i =>
      injection h with he; subst he; exact hu
    | resetToDefaults doc =>
      injection h with he; subst he
      unfold reset_to_defaults
      split
      · rename_i s1 heq
        exact uniqueIds_load_defaults emptyState doc s1 heq
          ⟨List.nodup_nil, List.nodup_nil⟩
      · exact ⟨List.nodup_nil, List.nodup_nil⟩
    | initDb doc =>
      injection h with he; subst he
      unfold init_db
      split
      · split
        · rename_i s1 heq
          exact uniqueIds_load_defaults s doc s1 heq hu
        · exact hu
      · exact hu

/-- Witness for C5: the double upsert of `c5Model` into the empty store, and
invariant preservation across that same step. -/
theorem model_upsert_unique_witness :
    (c5State1.models.filter (fun r => r.id == some "gpt")).length = 1 ∧
    UniqueIds c5State1 :=
  ⟨model_upsert_unique.1 emptyState c5Model "gpt" c5State1 c5State1 rfl rfl rfl,
   model_upsert_unique.2 emptyState (.addModel c5Model) c5State1
     ⟨List.nodup_nil, List.nodup_nil⟩ rfl⟩

/-! ## C9 -/

theorem find?_filter_of_imp {α : Type} (p q : α → Bool) (l : List α)
    (h : ∀ x, p x = true → q x = true) :
    (l.filter q).find? p = l.find? p := by
  induction l with
  | nil => rfl
  | cons a rest ih =>
    by_cases hq : q a = true
    · rw [List.filter_cons_of_pos hq]
      by_cases hp : p a = true
      · rw [List.find?_cons_of_pos _ hp, List.find?_cons_of_pos _ hp]
      · rw [List.find?_cons_of_neg _ hp, List.find?_cons_of_neg _ hp]
        exact ih
    · have hp : ¬ p a = true := fun hpa => hq (h a hpa)
      rw [List.filter_cons_of_neg hq, ih, List.find?_cons_of_neg _ hp]

theorem settingVal_upsertSetting_self (l : List (String × String)) (k v : String) :
    settingVal (upsertSetting l k v) k = some v := by
  unfold settingVal upsertSetting
  rw [List.find?_append]
  have hnone : (l.filter (fun kv => kv.1 != k)).find? (fun kv => kv.1 == k) = none := by
    rw [List.find?_eq_none]
    intro kv hkv hbeq
    have hne := (List.mem_filter.mp hkv).2
    rw [bne_iff_ne] at hne
    exact hne (by simpa using hbeq)
  rw [hnone]
  simp [List.find?]

theorem settingVal_upsertSetting_other (l : List (String × String)) (k v k' : String)
    (h : k' ≠ k) :
    settingVal (upsertSetting l k v) k' = settingVal l k' := by
  unfold settingVal upsertSetting
  rw [List.find?_append]
  have hlast : ([(k, v)].find? (fun kv => kv.1 == k')) = none := by
    simp [List.find?, show (k == k') = false from by simpa using (Ne.symm h)]
  have himp : ∀ x : String × String, (x.1 == k') = true → (x.1 != k) = true := by
    intro x hx
    rw [bne_iff_ne]
    intro hxk
    have hx2 : x.1 = k' := by simpa using hx
    exact h (hx2.symm.trans hxk)
  rw [hlast, Option.or_none, find?_filter_of_imp _ _ _ himp]

theorem settingVal_upsertSettingOpt_other (m : List (String × String)) (k : String)
    (o : Option String) (k' : String) (h : k' ≠ k) :
    settingVal (upsertSettingOpt m k o) k' = settingVal m k' := by
  cases o with
  | none => rfl
  | some v => exact settingVal_upsertSetting_other m k v k' h

/-- The three prompt keys after seeding: written exactly when present in the
document, untouched otherwise. -/
theorem seedSettings_val (l : List (String × String)) (d : DefaultsDoc) :
    settingVal (seedSettings l d) "systemPrompt" =
      (match d.systemPrompt with
       | some v => some v | none => settingVal l "systemPrompt") ∧
    settingVal (seedSettings l d) "personalityPrompt" =
      (match d.personalityPrompt with
       | some v => some v | none => settingVal l "personalityPrompt") ∧
    settingVal (seedSettings l d) "requirementsPrompt" =
      (match d.requirementsPrompt with
       | some v => some v | none => settingVal l "requirementsPrompt") := by
  have h1 : ("systemPrompt" : String) ≠ "personalityPrompt" := by decide
  have h2 : ("systemPrompt" : String) ≠ "requirementsPrompt" := by decide
  have h3 : ("personalityPrompt" : String) ≠ "requirementsPrompt" := by decide
  have h4 : ("personalityPrompt" : String) ≠ "systemPrompt" := by decide
  have h5 : ("requirementsPrompt" : String) ≠ "personalityPrompt" := by decide
  have h6 : ("requirementsPrompt" : String) ≠ "systemPrompt" := by decide
  refine ⟨?_, ?_, ?_⟩
  · unfold seedSettings
    rw [settingVal_upsertSettingOpt_other _ _ _ _ h2,
        settingVal_upsertSettingOpt_other _ _ _ _ h1]
    cases hsp : d.systemPrompt with
    | some v => exact settingVal_upsertSetting_self l _ v
    | none => rfl
  · unfold seedSettings
    rw [settingVal_upsertSettingOpt_other _ _ _ _ h3]
    cases hpp : d.personalityPrompt with
    | some v => exact settingVal_upsertSetting_self _ _ v
    | none =>
      show settingVal (upsertSettingOpt l "systemPrompt" d.systemPrompt)
        "personalityPrompt" = settingVal l "personalityPrompt"
      exact settingVal_upsertSettingOpt_other _ _ _ _ h4
  · unfold seedSettings
    cases hrp : d.requirementsPrompt with
    | some v => exact settingVal_upsertSetting_self _ _ v
    | none =>
      show settingVal (upsertSettingOpt (upsertSettingOpt l "systemPrompt"
        d.systemPrompt) "personalityPrompt" d.personalityPrompt)
        "requirementsPrompt" = settingVal l "requirementsPrompt"
      rw [settingVal_upsertSettingOpt_other _ _ _ _ h5,
          settingVal_upsertSettingOpt_other _ _ _ _ h6]

/-- A row already in the scales table survives seeding as long as no later
default scale carries its explicit id (auto-assigned ids are fresh, so they
never collide with it). -/
theorem seedScales_mem_preserved :
    ∀ (docs : List ScaleIn) (rows rows' : List ScaleRec) (r : ScaleRec),
      seedScales rows docs = .ok rows' → r ∈ rows →
      (∀ sc ∈ docs, ∀ j : Int, sc.id = some j → j ≠ r.id) → r ∈ rows' := by
  intro docs
  induction docs with
  | nil =>
    intro rows rows' r h hr _
    simp only [seedScales] at h
    cases h
    exact hr
  | cons sc rest ih =>
    intro rows rows' r h hr hne
    simp only [seedScales] at h
    split at h
    · cases h
    · rename_i r' hr'
      refine ih _ rows' r h ?_ (fun x hx => hne x (List.mem_cons_of_mem _ hx))
      unfold upsertScaleRow
      refine List.mem_append.mpr (Or.inl ?_)
      rw [List.mem_filter]
      refine ⟨hr, ?_⟩
      rw [bne_iff_ne]
      simp only [scaleInRow] at hr'
      split at hr'
      · cases hr'
      · rename_i nm hnm
        injection hr' with he
        subst he
        cases hsid : sc.id with
        | some j =>
          simp only [hsid, Option.getD_some]
          exact (hne sc (List.mem_cons_self _ _) j hsid).symm
        | none =>
          simp only [hsid, Option.getD_none]
          intro he2
          exact nextId_not_mem (scaleIds rows) (he2 ▸ List.mem_map.mpr ⟨r, hr, rfl⟩)

/-- Each fully-identified default scale lands in the seeded table with its
explicit id and fields preserved, provided the document's explicit ids are
pairwise distinct. -/
theorem seedScales_explicit :
    ∀ (docs : List ScaleIn) (rows rows' : List ScaleRec),
      seedScales rows docs = .ok rows' →
      (docs.filterMap (fun sc => sc.id)).Nodup →
      ∀ sc ∈ docs, ∀ (i : Int) (nm : String), sc.id = some i → sc.name = some nm →
        scaleInRec sc ∈ rows' := by
  intro docs
  induction docs with
  | nil =>
    intro rows rows' _ _ sc hsc
    cases hsc
  | cons sc0 rest ih =>
    intro rows rows' h hnd sc hsc i nm hi hn
    simp only [seedScales] at h
    split at h
    · cases h
    · rename_i r' hr'
      rcases List.mem_cons.mp hsc with rfl | hsc'
      · have hre : r' = scaleInRec sc := by
          simp only [scaleInRow, hn, hi, Option.getD_some] at hr'
          injection hr' with he
          rw [← he]
          simp [scaleInRec, hi, hn]
        have hid' : r'.id = i := by rw [hre]; simp [scaleInRec, hi]
        rw [← hre]
        refine seedScales_mem_preserved rest _ rows' r' h ?_ ?_
        · unfold upsertScaleRow
          exact List.mem_append.mpr (Or.inr (List.mem_singleton.mpr rfl))
        · intro x hx j hj hji
          simp only [List.filterMap_cons, hi] at hnd
          rw [List.nodup_cons] at hnd
          apply hnd.1
          exact List.mem_filterMap.mpr ⟨x, hx, by rw [hj, hji, hid']⟩
      · refine ih (upsertScaleRow rows r') rows' h ?_ sc hsc' i nm hi hn
        cases hs0 : sc0.id with
        | some j =>
          simp only [List.filterMap_cons, hs0] at hnd
          exact (List.nodup_cons.mp hnd).2
        | none =>
          simpa only [List.filterMap_cons, hs0] using hnd

/-- A row already in the models table survives seeding as long as no later
default model carries its id. -/
theorem seedModels_mem_preserved :
    ∀ (docs : List ModelIn) (rows rows' : List ModelRec) (r : ModelRec),
      seedModels rows docs = .ok rows' → r ∈ rows →
      (∀ mi ∈ docs, ∀ j : String, mi.id = some j → some j ≠ r.id) → r ∈ rows' := by
  intro docs
  induction docs with
  | nil =>
    intro rows rows' r h hr _
    simp only [seedModels] at h
    cases h
    exact hr
  | cons mi rest ih =>
    intro rows rows' r h hr hne
    simp only [seedModels] at h
    split at h
    · cases h
    · rename_i m hm
      refine ih _ rows' r h ?_ (fun x hx => hne x (List.mem_cons_of_mem _ hx))
      have hmid : m.id = mi.id := by
        simp only [modelInRow] at hm
        split at hm
        · cases hm
        · injection hm with he
          rw [← he]
      unfold upsertModel
      split
      · rename_i j hj
        refine List.mem_append.mpr (Or.inl ?_)
        rw [List.mem_filter]
        refine ⟨hr, ?_⟩
        rw [bne_iff_ne]
        exact (hne mi (List.mem_cons_self _ _) j (hmid.symm.trans hj)).symm
      · exact List.mem_append.mpr (Or.inl hr)

/-- Each fully-identified default model lands in the seeded table with its
explicit id preserved, provided the document's ids are pairwise distinct. -/
theorem seedModels_explicit :
    ∀ (docs : List ModelIn) (rows rows' : List ModelRec),
      seedModels rows docs = .ok rows' →
      (docs.filterMap (fun mi => mi.id)).Nodup →
      ∀ mi ∈ docs, ∀ (i nm : String), mi.id = some i → mi.name = some nm →
        modelInRec mi ∈ rows' := by
  intro docs
  induction docs with
  | nil =>
    intro rows rows' _ _ mi hmi
    cases hmi
  | cons mi0 rest ih =>
    intro rows rows' h hnd mi hmi i nm hi hn
    simp only [seedModels] at h
    split at h
    · cases h
    · rename_i m hm
      rcases List.mem_cons.mp hmi with rfl | hmi'
      · have hre : m = modelInRec mi := by
          simp only [modelInRow, hn] at hm
          injection hm with he
          rw [← he]
          simp [modelInRec, hn]
        have hid' : m.id = some i := by rw [hre]; simp [modelInRec, hi]
        rw [← hre]
        refine seedModels_mem_preserved rest _ rows' m h ?_ ?_
        · unfold upsertModel
          split <;> exact List.mem_append.mpr (Or.inr (List.mem_singleton.mpr rfl))
        · intro x hx j hj hji
          simp only [List.filterMap_cons, hi] at hnd
          rw [List.nodup_cons] at hnd
          apply hnd.1
          have hjs : j = i := by
            have h2 := hji.trans hid'
            injection h2
          exact List.mem_filterMap.mpr ⟨x, hx, by rw [hj, hjs]⟩
      · refine ih (upsertModel rows m) rows' h ?_ mi hmi' i nm hi hn
        cases hm0 : mi0.id with
        | some j =>
          simp only [List.filterMap_cons, hm0] at hnd
          exact (List.nodup_cons.mp hnd).2
        | none =>
          simpa only [List.filterMap_cons, hm0] using hnd

/-- C9: the seeding trigger and fallback.  (1) `init_db` seeds only when the
scales table is empty.  (2) A missing or unparseable defaults file is no
error: seeding proceeds exactly as with the substitute document
`{"systemPrompt": "", "scales": [], "models": []}`.  (3) Each of the three
known setting keys is written exactly when the document supplies it.  (4/5)
Each default scale and model carrying an explicit id (distinct ids within
the document) is written with that id and its fields preserved. -/
theorem seeding_trigger_and_fallback :
    (∀ (s : State) (doc : Option DefaultsDoc), s.scales ≠ [] → init_db s doc = s) ∧
    (∀ s : State, load_defaults s none = load_defaults s (some substituteDefaults)) ∧
    (∀ (s : State) (d : DefaultsDoc) (s' : State), load_defaults s (some d) = .ok s' →
      settingVal s'.settings "systemPrompt" =
        (match d.systemPrompt with
         | some v => some v | none => settingVal s.settings "systemPrompt") ∧
      settingVal s'.settings "personalityPrompt" =
        (match d.personalityPrompt with
         | some v => some v | none => settingVal s.settings "personalityPrompt") ∧
      settingVal s'.settings "requirementsPrompt" =
        (match d.requirementsPrompt with
         | some v => some v | none => settingVal s.settings "requirementsPrompt")) ∧
    (∀ (s : State) (d : DefaultsDoc) (s' : State), load_defaults s (some d) = .ok s' →
      (d.scales.filterMap (fun sc => sc.id)).Nodup →
      ∀ sc ∈ d.scales, ∀ (i : Int) (nm : String), sc.id = some i → sc.name = some nm →
        scaleInRec sc ∈ s'.scales) ∧
    (∀ (s : State) (d : DefaultsDoc) (s' : State), load_defaults s (some d) = .ok s' →
      (d.models.filterMap (fun mi => mi.id)).Nodup →
      ∀ mi ∈ d.models, ∀ (i nm : String), mi.id = some i → mi.name = some nm →
        modelInRec mi ∈ s'.models) := by
  refine ⟨?_, ?_, ?_, ?_, ?_⟩
  · intro s doc h
    simp [init_db, List.isEmpty_iff, h]
  · intro s
    rfl
  · intro s d s' h
    simp only [load_defaults] at h
    split at h
    · cases h
    · rename_i scales hsc
      split at h
      · cases h
      · rename_i models hmd
        injection h with he
        subst he
        exact seedSettings_val s.settings d
  · intro s d s' h hnd
    simp only [load_defaults] at h
    split at h
    · cases h
    · rename_i scales hsc
      split at h
      · cases h
      · rename_i models hmd
        injection h with he
        subst he
        exact seedScales_explicit d.scales s.scales scales hsc hnd
  · intro s d s' h hnd
    simp only [load_defaults] at h
    split at h
    · cases h
    · rename_i scales hsc
      split at h
      · cases h
      · rename_i models hmd
        injection h with he
        subst he
        exact seedModels_explicit d.models s.models models hmd hnd

/-- Witness for C9: a populated store suppresses seeding; the substitute
document equivalence; and a concrete document's key, scale and model land as
stated. -/
theorem seeding_trigger_and_fallback_witness :
    init_db c9StateNonempty none = c9StateNonempty ∧
    load_defaults emptyState none = load_defaults emptyState (some substituteDefaults) ∧
    settingVal c9Seeded.settings "systemPrompt" =
      (match c9Doc.systemPrompt with
       | some v => some v | none => settingVal emptyState.settings "systemPrompt") ∧
    scaleInRec { id := some 4, name := some "S", category := some "c",
                 enabled := some true, instructions := some "i" } ∈ c9Seeded.scales ∧
    modelInRec { id := some "m1", name := some "M", provider := none } ∈ c9Seeded.models :=
  ⟨seeding_trigger_and_fallback.1 c9StateNonempty none (by decide),
   seeding_trigger_and_fallback.2.1 emptyState,
   (seeding_trigger_and_fallback.2.2.1 emptyState c9Doc c9Seeded rfl).1,
   seeding_trigger_and_fallback.2.2.2.1 emptyState c9Doc c9Seeded rfl (by decide)
     { id := some 4, name := some "S", category := some "c",
       enabled := some true, instructions := some "i" } (by decide) 4 "S" rfl rfl,
   seeding_trigger_and_fallback.2.2.2.2 emptyState c9Doc c9Seeded rfl (by decide)
     { id := some "m1", name := some "M", provider := none } (by decide)
     "m1" "M" rfl rfl⟩

/-! ## C8 -/

/-- C8: DELETE `/api/models/<id>` for an id no stored model carries answers
`{"success": true}` and leaves the store — hence also the size of the model
set — unchanged. -/
theorem delete_model_absent_noop (s : State) (i : String)
    (h : i ∉ modelIds s.models) :
    delete_model s i = (s, true) := by
  have hkeep : s.models.filter (fun r => r.id != some i) = s.models := by
    rw [List.filter_eq_self]
    intro r hr
    rw [bne_iff_ne]
    intro he
    exact h (List.mem_filterMap.mpr ⟨r, hr, he⟩)
  simp [delete_model, hkeep]

/-- Witness for C8: deleting the absent id "b" from a store holding only the
model "a". -/
theorem delete_model_absent_noop_witness :
    "b" ∉ modelIds c8State.models ∧ delete_model c8State "b" = (c8State, true) :=
  ⟨by decide, delete_model_absent_noop c8State "b" (by decide)⟩

end Liti
